import Mathlib

/-
Verification of the latency-statistics, gold-set evaluation and ablation
engine of the Lecture Navigator repository.  The repository ships the
React dashboard surfaces; the statistics engine they query is specified
in spec.md sections 3, 4, 7 and 8.  Components of the engine that are not
present under src/ are modelled from the spec, as marked on each
definition.  The MRR chart-analysis client behaviour is embedded from
src/frontend/src/components/MRRChartAnalysisOptimized.jsx.
-/

namespace LectureNavigator

/-- Modelled from the spec: the LatencySample record of section 3 (the
backend SampleLog implementation is not under src/; the dashboards only
read its derived statistics).  Timestamps and durations are rationals
standing for millisecond values. -/
structure LatencySample where
  timestamp : ℚ
  duration_ms : ℚ
  variant_tag : Option String
deriving DecidableEq, Repr

/-- Modelled from the spec: snapshot of section 4.1 returns all samples
with timestamp at least now minus the window, without mutating the log. -/
def snapshot (log : List LatencySample) (now window_minutes : ℚ) :
    List LatencySample :=
  log.filter (fun s => decide (now - window_minutes ≤ s.timestamp))

/-- Modelled from the spec: the nearest-rank index of section 4.1 for the
percentile pNum/pDen over n sorted samples: ceil(p * n) - 1, clamped to
the range from 0 to n - 1.  The ceiling of (pNum * n) / pDen is computed
as (pNum * n + pDen - 1) / pDen in natural-number division; truncated
subtraction clamps the lower end at 0 and the min clamps the upper end. -/
def percentileIndex (pNum pDen n : ℕ) : ℕ :=
  min ((pNum * n + pDen - 1) / pDen - 1) (n - 1)

/-- Modelled from the spec: the nearest-rank percentile of section 4.1:
sort the durations ascending and take the value at the clamped index. -/
def percentileOf (durs : List ℚ) (pNum pDen : ℕ) : ℚ :=
  (List.insertionSort (· ≤ ·) durs).getD (percentileIndex pNum pDen durs.length) 0

/-- Modelled from the spec: the WindowStats record of section 3, with the
explicit ready flag of section 4.1. -/
structure WindowStats where
  count : ℕ
  mean_ms : ℚ
  p50_ms : ℚ
  p95_ms : ℚ
  p99_ms : ℚ
  max_ms : ℚ
  window_minutes : ℚ
  threshold_exceeded : Bool
  ready : Bool
deriving DecidableEq, Repr

/-- Modelled from the spec: the all-zero WindowStats returned for an empty
window (section 4.1: count 0 means every numeric field is 0 and ready is
false, with no error raised). -/
def emptyStats (w : ℚ) : WindowStats :=
  { count := 0, mean_ms := 0, p50_ms := 0, p95_ms := 0, p99_ms := 0,
    max_ms := 0, window_minutes := w, threshold_exceeded := false,
    ready := false }

/-- Modelled from the spec: the WindowedStatsCalculator of section 4.1 on a
list of durations.  The max is the value of the ascending sort at the
nearest-rank index for p = 1, which is the largest duration. -/
def statsOfDurations (durs : List ℚ) (w threshold_ms : ℚ) : WindowStats :=
  if durs.length = 0 then emptyStats w
  else
    { count := durs.length
      mean_ms := durs.sum / durs.length
      p50_ms := percentileOf durs 50 100
      p95_ms := percentileOf durs 95 100
      p99_ms := percentileOf durs 99 100
      max_ms := percentileOf durs 100 100
      window_minutes := w
      threshold_exceeded := decide (threshold_ms < percentileOf durs 95 100)
      ready := true }

/-- Modelled from the spec: stats of section 4.1 composes the snapshot with
the windowed statistics computation. -/
def stats (log : List LatencySample) (now window_minutes threshold_ms : ℚ) :
    WindowStats :=
  statsOfDurations ((snapshot log now window_minutes).map
    (fun s => s.duration_ms)) window_minutes threshold_ms

/-- Modelled from the spec: stats as a read operation on the store
(section 5: a pure read with no side effect on the SampleLog); the pair
returns the computed statistics together with the store afterwards. -/
def statsOp (log : List LatencySample) (now window_minutes threshold_ms : ℚ) :
    WindowStats × List LatencySample :=
  (stats log now window_minutes threshold_ms, log)

/-- Modelled from the spec: which metric the AlertEvaluator of section 4.2
compared against the threshold, as surfaced by metric_used in
src/frontend/src/components/LatencyMonitor.jsx. -/
inductive MetricUsed where
  | p95 : MetricUsed
  | maxFallback : MetricUsed
  | noData : MetricUsed
deriving DecidableEq, Repr

/-- Modelled from the spec: the AlertState record of section 3. -/
structure AlertState where
  alert : Bool
  message : String
  metric_used : MetricUsed
  underlying : WindowStats
deriving DecidableEq, Repr

/-- Modelled from the spec: AlertEvaluator.evaluate of section 4.2: no data
means no alert; below 5 samples fall back to the max; otherwise compare
the p95 against the threshold. -/
def evaluate (ws : WindowStats) (threshold_ms : ℚ) : AlertState :=
  if ws.count = 0 then
    { alert := false, message := "no data in window",
      metric_used := MetricUsed.noData, underlying := ws }
  else if ws.count < 5 then
    { alert := decide (threshold_ms < ws.max_ms),
      message := "fewer than 5 samples, comparing max latency instead of p95",
      metric_used := MetricUsed.maxFallback, underlying := ws }
  else
    { alert := decide (threshold_ms < ws.p95_ms),
      message := "p95 latency compared against threshold",
      metric_used := MetricUsed.p95, underlying := ws }

/-- Modelled from the spec: the GoldQuery record of section 3 (the
GoldSetEvaluator implementation is not under src/; only its consumers in
MRREvaluation.jsx and MRRChartAnalysisOptimized.jsx are). -/
structure GoldQuery where
  query_text : String
  expected_target_id : String
deriving DecidableEq, Repr

/-- Modelled from the spec: rank determination of section 4.3 step 2: the
1-based rank at which the expected target first appears among the
returned results, if present and at most k. -/
def rankOf (expected : String) (results : List String) (k : ℕ) : Option ℕ :=
  match results.findIdx? (fun r => r == expected) with
  | Option.none => Option.none
  | Option.some idx => if idx + 1 ≤ k then Option.some (idx + 1) else Option.none

/-- Modelled from the spec: the per-query entry of the EvaluationResult of
section 3. -/
structure QueryResult where
  found : Bool
  reciprocal_rank : ℚ
  error : Option String
deriving DecidableEq, Repr

/-- Modelled from the spec: per-query evaluation of section 4.3 steps 1 to
3; a failing call to the injected search capability is recorded as a
per-query error entry, never propagated. -/
def evalQuery (search : String → Except String (List String)) (k : ℕ)
    (q : GoldQuery) : QueryResult :=
  match search q.query_text with
  | Except.error msg =>
      { found := false, reciprocal_rank := 0, error := Option.some msg }
  | Except.ok results =>
      match rankOf q.expected_target_id results k with
      | Option.none =>
          { found := false, reciprocal_rank := 0, error := Option.none }
      | Option.some rank =>
          { found := true, reciprocal_rank := 1 / (rank : ℚ), error := Option.none }

/-- Modelled from the spec: the EvaluationResult record of section 3,
without the wall-clock field. -/
structure EvaluationResult where
  per_query : List (String × QueryResult)
  mrr : ℚ
  coverage : ℚ
  total_queries : ℕ
  found_queries : ℕ
deriving DecidableEq, Repr

/-- Modelled from the spec: GoldSetEvaluator.run of section 4.3: evaluate
every gold query against the injected search capability and aggregate the
mean reciprocal rank and the coverage. -/
def run (gold : List GoldQuery) (search : String → Except String (List String))
    (k : ℕ) : EvaluationResult :=
  let per := gold.map (fun q => (q.query_text, evalQuery search k q))
  { per_query := per
    mrr := (per.map (fun e => e.2.reciprocal_rank)).sum / gold.length
    coverage := ((per.filter (fun e => e.2.found)).length : ℚ) / gold.length
    total_queries := gold.length
    found_queries := (per.filter (fun e => e.2.found)).length }

/-- Modelled from the spec: the property that a gold query is found at
rank 1 by the injected search capability. -/
def foundAtRank1 (search : String → Except String (List String)) (k : ℕ)
    (q : GoldQuery) : Prop :=
  ∃ results, search q.query_text = Except.ok results
    ∧ rankOf q.expected_target_id results k = Option.some 1

/-- List of the reciprocal ranks of a gold set under a search capability,
in gold-set order. -/
def rrList (gold : List GoldQuery) (search : String → Except String (List String))
    (k : ℕ) : List ℚ :=
  gold.map (fun q => (evalQuery search k q).reciprocal_rank)

/-- Concrete two-query gold set of scenario D in spec.md section 8. -/
def goldD : List GoldQuery :=
  [{ query_text := "q1", expected_target_id := "t1" },
   { query_text := "q2", expected_target_id := "t2" }]

/-- Concrete search capability for scenario D: the first query finds its
target at rank 1, the second query does not find its target at all. -/
def searchD : String → Except String (List String) :=
  fun s => if s = "q1" then Except.ok ["t1", "x"] else Except.ok ["y"]

/-- Concrete two-query gold set used to exercise the per-query error
handling of section 4.3. -/
def goldE : List GoldQuery :=
  [{ query_text := "q1", expected_target_id := "t1" },
   { query_text := "q2", expected_target_id := "t2" }]

/-- Concrete search capability that times out on the second query and
succeeds on every other query. -/
def searchE : String → Except String (List String) :=
  fun s => if s = "q2" then Except.error "timeout" else Except.ok ["t1"]

/-- Modelled from the spec: the mean of a sample list (section 4.4; the
AblationAnalyzer implementation is not under src/, only its consumer
WindowSizeAblation.jsx is). -/
def meanOf (l : List ℚ) : ℚ := l.sum / l.length

/-- Modelled from the spec: the population variance of a sample list, the
square of the standard deviation used by the stability score of
section 4.4. -/
def varianceOf (l : List ℚ) : ℚ :=
  ((l.map (fun x => (x - meanOf l) ^ 2)).sum) / l.length

/-- Modelled from the spec: the stability score of section 4.4, one minus
the capped coefficient of variation, clamped to the unit interval. -/
def stabilityScore (stddev_ms mean_ms eps : ℚ) : ℚ :=
  min 1 (max 0 (1 - min 1 (stddev_ms / max mean_ms eps)))

/-- Modelled from the spec: the reliability label of section 4.4. -/
inductive ReliabilityLevel where
  | low : ReliabilityLevel
  | medium : ReliabilityLevel
  | high : ReliabilityLevel
deriving DecidableEq, Repr

/-- Numeric order of reliability levels, low before medium before high. -/
def relRank : ReliabilityLevel → ℕ
  | ReliabilityLevel.low => 0
  | ReliabilityLevel.medium => 1
  | ReliabilityLevel.high => 2

/-- Modelled from the spec: the reliability level keyed off the sample
count (section 4.4: below 10 low, below 30 medium, otherwise high). -/
def reliabilityLevel (count : ℕ) : ReliabilityLevel :=
  if count < 10 then ReliabilityLevel.low
  else if count < 30 then ReliabilityLevel.medium
  else ReliabilityLevel.high

/-- The weaker of two reliability levels. -/
def minRel (a b : ReliabilityLevel) : ReliabilityLevel :=
  if relRank a ≤ relRank b then a else b

/-- Modelled from the spec: the recommendation confidence of section 4.4,
the minimum reliability level across the compared variants, given their
sample counts. -/
def confidenceOf (counts : List ℕ) : ReliabilityLevel :=
  (counts.map reliabilityLevel).foldr minRel ReliabilityLevel.high

/-- From src/frontend/src/components/MRRChartAnalysisOptimized.jsx,
runEvaluation: the request body sends the k value capped at 10. -/
def requestK (k : ℕ) : ℕ := min k 10

/-- From src/frontend/src/components/MRRChartAnalysisOptimized.jsx: the k
input field allows values up to 20. -/
def kInputMax : ℕ := 20

/-- From src/frontend/src/components/MRRChartAnalysisOptimized.jsx: the
chart headings label the result with the uncapped k from the input. -/
def chartLabelK (k : ℕ) : ℕ := k

end LectureNavigator

namespace LectureNavigator

theorem natCeilDiv_eq_ceil (a b : ℕ) (hb : 0 < b) :
    (((a + b - 1) / b : ℕ) : ℤ) = ⌈(a : ℚ) / b⌉ := by
  have hbq : (0 : ℚ) < b := by exact_mod_cast hb
  symm
  rw [Int.ceil_eq_iff]
  constructor
  · rcases Nat.eq_zero_or_pos ((a + b - 1) / b) with hm | hm
    · rw [hm]
      push_cast
      have : (0:ℚ) ≤ (a : ℚ) / b := by positivity
      linarith
    · obtain ⟨k, hk⟩ : ∃ k, (a + b - 1) / b = k + 1 := ⟨(a + b - 1) / b - 1, by omega⟩
      have ha : 0 < a := by
        by_contra hc
        have ha0 : a = 0 := by omega
        have : (a + b - 1) / b = 0 := by
          apply Nat.div_eq_of_lt
          omega
        omega
      have hkb : (k + 1) * b ≤ a + b - 1 := (Nat.le_div_iff_mul_le hb).mp (le_of_eq hk.symm)
      have hexp : (k + 1) * b = k * b + b := by ring
      have hkba : k * b < a := by omega
      have hlt : (k : ℚ) < (a : ℚ) / b := by
        rw [lt_div_iff₀ hbq]
        exact_mod_cast hkba
      rw [hk]
      push_cast
      linarith
  · have hle : a ≤ ((a + b - 1) / b) * b := by
      by_contra hc
      push_neg at hc
      have h1 : ((a + b - 1) / b + 1) * b ≤ a + b - 1 := by
        have hexp : ((a + b - 1) / b + 1) * b = ((a + b - 1) / b) * b + b := by ring
        omega
      have h2 : (a + b - 1) / b + 1 ≤ (a + b - 1) / b :=
        (Nat.le_div_iff_mul_le hb).mpr h1
      omega
    rw [div_le_iff₀ hbq]
    exact_mod_cast hle

theorem getD_mono_of_sorted {l : List ℚ} (h : List.Sorted (· ≤ ·) l) {i j : ℕ}
    (hij : i ≤ j) (hj : j < l.length) : l.getD i 0 ≤ l.getD j 0 := by
  have hi : i < l.length := lt_of_le_of_lt hij hj
  rw [List.getD_eq_getElem l 0 hi, List.getD_eq_getElem l 0 hj]
  rw [← List.get_eq_getElem l ⟨i, hi⟩, ← List.get_eq_getElem l ⟨j, hj⟩]
  exact @List.Sorted.rel_get_of_le ℚ (· ≤ ·) _ l h ⟨i, hi⟩ ⟨j, hj⟩ hij

theorem percentileIndex_lt (pNum pDen : ℕ) {n : ℕ} (hn : 0 < n) :
    percentileIndex pNum pDen n < n :=
  lt_of_le_of_lt (min_le_right _ _) (Nat.sub_lt hn one_pos)

theorem percentileIndex_mono {pa pb : ℕ} (pDen n : ℕ) (hab : pa ≤ pb) :
    percentileIndex pa pDen n ≤ percentileIndex pb pDen n := by
  unfold percentileIndex
  have h1 : pa * n ≤ pb * n := Nat.mul_le_mul_right n hab
  exact min_le_min (Nat.sub_le_sub_right (Nat.div_le_div_right (by omega)) 1) le_rfl

theorem percentileOf_mono {durs : List ℚ} (h : durs ≠ []) {pa pb : ℕ} (pDen : ℕ)
    (hab : pa ≤ pb) : percentileOf durs pa pDen ≤ percentileOf durs pb pDen := by
  unfold percentileOf
  have hsort : List.Sorted (· ≤ ·) (List.insertionSort (· ≤ ·) durs) :=
    List.sorted_insertionSort (· ≤ ·) durs
  have hlen : (List.insertionSort (· ≤ ·) durs).length = durs.length :=
    List.length_insertionSort (· ≤ ·) durs
  have hn : 0 < durs.length := List.length_pos.mpr h
  apply getD_mono_of_sorted hsort (percentileIndex_mono pDen durs.length hab)
  rw [hlen]
  exact percentileIndex_lt pb pDen hn

theorem statsOfDurations_of_ne_nil {durs : List ℚ} (w th : ℚ) (h : durs ≠ []) :
    statsOfDurations durs w th =
      { count := durs.length, mean_ms := durs.sum / durs.length,
        p50_ms := percentileOf durs 50 100, p95_ms := percentileOf durs 95 100,
        p99_ms := percentileOf durs 99 100, max_ms := percentileOf durs 100 100,
        window_minutes := w,
        threshold_exceeded := decide (th < percentileOf durs 95 100),
        ready := true } := by
  rw [statsOfDurations, if_neg]
  exact fun hc => h (List.length_eq_zero.mp hc)

theorem percentileIndex_eq_ceil {pNum pDen : ℕ} (n : ℕ) (hp : 0 < pNum)
    (hpd : pNum ≤ pDen) :
    percentileIndex pNum pDen n
      = min ((⌈(pNum : ℚ) / pDen * n⌉).toNat - 1) (n - 1) := by
  have hd : 0 < pDen := lt_of_lt_of_le hp hpd
  have hcast : (pNum : ℚ) / pDen * n = ((pNum * n : ℕ) : ℚ) / pDen := by
    push_cast
    ring
  rw [hcast, ← natCeilDiv_eq_ceil (pNum * n) pDen hd, Int.toNat_natCast]
  rfl

/-- C1: for every non-empty duration list and percentile pNum/pDen in
(0,1], the computed percentile is the value of the ascending sort at index
ceil(p * n) - 1 clamped to the range from 0 to n - 1, and that index is in
range; in particular for the 10 samples 100,200,...,1000 ms the p95 is
1000 (the maximum) and the p50 is 500. -/
theorem percentile_nearest_rank :
    (∀ (durs : List ℚ) (pNum pDen : ℕ), durs ≠ [] → 0 < pNum → pNum ≤ pDen →
        percentileOf durs pNum pDen
          = (List.insertionSort (· ≤ ·) durs).getD
              (min ((⌈(pNum : ℚ) / pDen * durs.length⌉).toNat - 1)
                (durs.length - 1)) 0
        ∧ percentileIndex pNum pDen durs.length < durs.length)
    ∧ (statsOfDurations [100,200,300,400,500,600,700,800,900,1000] 60 2000).p95_ms = 1000
    ∧ (statsOfDurations [100,200,300,400,500,600,700,800,900,1000] 60 2000).p50_ms = 500 := by
  refine ⟨fun durs pNum pDen h hp hpd => ⟨?_, ?_⟩, by decide, by decide⟩
  · rw [percentileOf, percentileIndex_eq_ceil durs.length hp hpd]
  · exact percentileIndex_lt pNum pDen (List.length_pos.mpr h)

theorem percentile_nearest_rank_witness :
    ([(100:ℚ)] ≠ []) ∧ percentileIndex 95 100 [(100:ℚ)].length < [(100:ℚ)].length :=
  ⟨by decide,
    (percentile_nearest_rank.1 [100] 95 100 (by decide) (by decide) (by decide)).2⟩

/-- C2: the alert evaluation returns no alert on an empty window, uses the
max metric with alert iff max exceeds the threshold when the count is
between 1 and 4, and uses the p95 metric with alert iff p95 exceeds the
threshold when the count is at least 5; in particular for the 4 samples
100, 200, 300, 5000 ms and threshold 2000 ms the metric used is the max
fallback and the alert fires. -/
theorem alert_small_sample_fallback :
    (∀ (ws : WindowStats) (th : ℚ),
        (ws.count = 0 → (evaluate ws th).alert = false)
      ∧ (1 ≤ ws.count → ws.count < 5 →
          (evaluate ws th).metric_used = MetricUsed.maxFallback
          ∧ (evaluate ws th).alert = decide (th < ws.max_ms))
      ∧ (5 ≤ ws.count →
          (evaluate ws th).metric_used = MetricUsed.p95
          ∧ (evaluate ws th).alert = decide (th < ws.p95_ms)))
    ∧ (evaluate (statsOfDurations [100,200,300,5000] 60 2000) 2000).metric_used
        = MetricUsed.maxFallback
    ∧ (evaluate (statsOfDurations [100,200,300,5000] 60 2000) 2000).alert = true := by
  refine ⟨fun ws th => ⟨?_, ?_, ?_⟩, by decide, by decide⟩
  · intro h
    simp [evaluate, h]
  · intro h1 h5
    have h0 : ¬ ws.count = 0 := by omega
    simp [evaluate, h0, h5]
  · intro h5
    have h0 : ¬ ws.count = 0 := by omega
    have hlt : ¬ ws.count < 5 := by omega
    simp [evaluate, h0, hlt]

theorem alert_small_sample_fallback_witness :
    (1 ≤ (statsOfDurations [100,200,300,5000] 60 2000).count
      ∧ (statsOfDurations [100,200,300,5000] 60 2000).count < 5)
    ∧ (evaluate (statsOfDurations [100,200,300,5000] 60 2000) 2000).metric_used
        = MetricUsed.maxFallback :=
  ⟨⟨by decide, by decide⟩,
    ((alert_small_sample_fallback.1 (statsOfDurations [100,200,300,5000] 60 2000) 2000).2.1
      (by decide) (by decide)).1⟩

/-- C3: for every non-empty sample set the windowed statistics satisfy
p50 at most p95, p95 at most p99 and p99 at most max. -/
theorem windowstats_percentiles_monotone :
    ∀ (durs : List ℚ) (w th : ℚ), durs ≠ [] →
      0 < (statsOfDurations durs w th).count
      ∧ (statsOfDurations durs w th).p50_ms ≤ (statsOfDurations durs w th).p95_ms
      ∧ (statsOfDurations durs w th).p95_ms ≤ (statsOfDurations durs w th).p99_ms
      ∧ (statsOfDurations durs w th).p99_ms ≤ (statsOfDurations durs w th).max_ms := by
  intro durs w th h
  rw [statsOfDurations_of_ne_nil w th h]
  exact ⟨List.length_pos.mpr h, percentileOf_mono h 100 (by omega),
    percentileOf_mono h 100 (by omega), percentileOf_mono h 100 (by omega)⟩

theorem windowstats_percentiles_monotone_witness :
    ([(100:ℚ),200,300] ≠ [])
    ∧ (statsOfDurations [(100:ℚ),200,300] 60 2000).p50_ms
        ≤ (statsOfDurations [(100:ℚ),200,300] 60 2000).p95_ms :=
  ⟨by decide, (windowstats_percentiles_monotone [100,200,300] 60 2000 (by decide)).2.1⟩

/-- C5: for every window with no samples in it, the statistics are the
all-zero record with ready false, raising no error, and the alert
evaluation on that record reports no alert. -/
theorem empty_window_stats_and_alert :
    ∀ (log : List LatencySample) (now w th : ℚ), snapshot log now w = [] →
        stats log now w th = emptyStats w
      ∧ (stats log now w th).count = 0 ∧ (stats log now w th).mean_ms = 0
      ∧ (stats log now w th).p50_ms = 0 ∧ (stats log now w th).p95_ms = 0
      ∧ (stats log now w th).p99_ms = 0 ∧ (stats log now w th).max_ms = 0
      ∧ (stats log now w th).ready = false
      ∧ (evaluate (stats log now w th) th).alert = false := by
  intro log now w th h
  have hs : stats log now w th = emptyStats w := by
    rw [stats, h]
    rfl
  rw [hs]
  exact ⟨rfl, rfl, rfl, rfl, rfl, rfl, rfl, rfl, by simp [evaluate, emptyStats]⟩

theorem empty_window_stats_and_alert_witness :
    snapshot [] 0 0 = []
    ∧ stats [] 0 0 2000 = emptyStats 0
    ∧ (evaluate (stats [] 0 0 2000) 2000).alert = false :=
  ⟨rfl, (empty_window_stats_and_alert [] 0 0 2000 rfl).1,
    (empty_window_stats_and_alert [] 0 0 2000 rfl).2.2.2.2.2.2.2.2⟩

/-- C9: reading the statistics is a pure operation: it leaves the store
unchanged and two consecutive reads with no record in between return
identical WindowStats. -/
theorem stats_read_idempotent :
    ∀ (log : List LatencySample) (now w th : ℚ),
        (statsOp log now w th).2 = log
      ∧ (statsOp ((statsOp log now w th).2) now w th).1 = (statsOp log now w th).1 :=
  fun _ _ _ _ => ⟨rfl, rfl⟩

end LectureNavigator

namespace LectureNavigator

theorem rankOf_pos {expected : String} {results : List String} {k rank : ℕ}
    (h : rankOf expected results k = Option.some rank) : 1 ≤ rank := by
  unfold rankOf at h
  split at h
  · exact absurd h (by simp)
  · split at h
    · cases h
      omega
    · exact absurd h (by simp)

theorem evalQuery_error {search : String → Except String (List String)} {k : ℕ}
    {q : GoldQuery} {msg : String} (hs : search q.query_text = Except.error msg) :
    evalQuery search k q =
      { found := false, reciprocal_rank := 0, error := Option.some msg } := by
  simp [evalQuery, hs]

theorem evalQuery_found {search : String → Except String (List String)} {k : ℕ}
    {q : GoldQuery} {results : List String} {rank : ℕ}
    (hs : search q.query_text = Except.ok results)
    (hr : rankOf q.expected_target_id results k = Option.some rank) :
    evalQuery search k q =
      { found := true, reciprocal_rank := 1 / (rank : ℚ), error := Option.none } := by
  simp [evalQuery, hs, hr]

theorem evalQuery_notFound {search : String → Except String (List String)} {k : ℕ}
    {q : GoldQuery} {results : List String}
    (hs : search q.query_text = Except.ok results)
    (hr : rankOf q.expected_target_id results k = Option.none) :
    evalQuery search k q =
      { found := false, reciprocal_rank := 0, error := Option.none } := by
  simp [evalQuery, hs, hr]

theorem evalQuery_rr_bounds (search : String → Except String (List String)) (k : ℕ)
    (q : GoldQuery) : 0 ≤ (evalQuery search k q).reciprocal_rank
      ∧ (evalQuery search k q).reciprocal_rank ≤ 1 := by
  cases hs : search q.query_text with
  | error msg =>
    rw [evalQuery_error hs]
    norm_num
  | ok results =>
    cases hr : rankOf q.expected_target_id results k with
    | none =>
      rw [evalQuery_notFound hs hr]
      norm_num
    | some rank =>
      rw [evalQuery_found hs hr]
      have h1 : 1 ≤ rank := rankOf_pos hr
      have h1q : (1:ℚ) ≤ (rank : ℚ) := by exact_mod_cast h1
      constructor
      · positivity
      · rw [div_le_one (by linarith)]
        exact h1q

theorem evalQuery_rr_eq_one_iff (search : String → Except String (List String))
    (k : ℕ) (q : GoldQuery) :
    (evalQuery search k q).reciprocal_rank = 1 ↔ foundAtRank1 search k q := by
  cases hs : search q.query_text with
  | error msg =>
    rw [evalQuery_error hs]
    simp only [foundAtRank1, hs]
    constructor
    · intro h
      exact absurd h (by norm_num)
    · rintro ⟨r, hr, -⟩
      exact absurd hr (by simp)
  | ok results =>
    cases hr : rankOf q.expected_target_id results k with
    | none =>
      rw [evalQuery_notFound hs hr]
      simp only [foundAtRank1, hs]
      constructor
      · intro h
        exact absurd h (by norm_num)
      · rintro ⟨r, hrr, hone⟩
        cases hrr
        rw [hr] at hone
        exact absurd hone (by simp)
    | some rank =>
      rw [evalQuery_found hs hr]
      have h1 : 1 ≤ rank := rankOf_pos hr
      constructor
      · intro h
        have hrq : (rank : ℚ) ≠ 0 := by
          have : (1:ℚ) ≤ (rank:ℚ) := by exact_mod_cast h1
          linarith
        rw [div_eq_one_iff_eq hrq] at h
        have : rank = 1 := by exact_mod_cast h.symm
        exact ⟨results, hs, by rw [hr, this]⟩
      · rintro ⟨r, hrr, hone⟩
        rw [hs] at hrr
        cases hrr
        rw [hr] at hone
        have : rank = 1 := Option.some.inj hone
        rw [this]
        norm_num

theorem run_mrr (gold : List GoldQuery) (search : String → Except String (List String))
    (k : ℕ) : (run gold search k).mrr = (rrList gold search k).sum / gold.length := by
  simp only [run, List.map_map]
  rfl

theorem rrList_length (gold : List GoldQuery)
    (search : String → Except String (List String)) (k : ℕ) :
    (rrList gold search k).length = gold.length := by
  simp [rrList]

theorem sum_le_length_of_le_one {l : List ℚ} (h : ∀ x ∈ l, x ≤ 1) :
    l.sum ≤ (l.length : ℚ) := by
  have := List.sum_le_card_nsmul l 1 h
  simpa using this

theorem sum_eq_length_iff_all_one {l : List ℚ} (h1 : ∀ x ∈ l, x ≤ 1) :
    l.sum = (l.length : ℚ) ↔ ∀ x ∈ l, x = 1 := by
  induction l with
  | nil => simp
  | cons a t ih =>
    have ha : a ≤ 1 := h1 a (List.mem_cons_self a t)
    have ht : ∀ x ∈ t, x ≤ 1 := fun x hx => h1 x (List.mem_cons_of_mem a hx)
    have hts : t.sum ≤ (t.length : ℚ) := sum_le_length_of_le_one ht
    simp only [List.sum_cons, List.length_cons]
    push_cast
    constructor
    · intro h
      have ha1 : a = 1 := by linarith
      have hT : t.sum = (t.length : ℚ) := by linarith
      intro x hx
      rcases List.mem_cons.mp hx with rfl | hx2
      · exact ha1
      · exact (ih ht).mp hT x hx2
    · intro h
      have ha1 : a = 1 := h a (List.mem_cons_self a t)
      have hT : t.sum = (t.length : ℚ) :=
        (ih ht).mpr (fun x hx => h x (List.mem_cons_of_mem a hx))
      rw [ha1, hT]
      ring

/-- C4 (amended): reciprocal ranks are 1 over the found rank or 0 when not
found, the mrr is the mean of the reciprocal ranks and lies in the unit
interval, and for every NONEMPTY gold set the mrr is 1 exactly when every
gold query is found at rank 1; for the scenario D gold set of two queries
with one found at rank 1 and one not found, the mrr is one half.  The
nonemptiness restriction is forced by the counterexample
mrr_one_iff_fails_on_empty_goldset. -/
theorem goldset_mrr_properties :
    (∀ (gold : List GoldQuery) (search : String → Except String (List String)) (k : ℕ),
        0 ≤ (run gold search k).mrr ∧ (run gold search k).mrr ≤ 1
      ∧ (run gold search k).mrr = (rrList gold search k).sum / (run gold search k).total_queries
      ∧ (gold ≠ [] → ((run gold search k).mrr = 1 ↔ ∀ q ∈ gold, foundAtRank1 search k q)))
    ∧ (∀ (search : String → Except String (List String)) (k : ℕ) (q : GoldQuery)
        (results : List String) (rank : ℕ),
          search q.query_text = Except.ok results →
          rankOf q.expected_target_id results k = Option.some rank →
            (evalQuery search k q).reciprocal_rank = 1 / (rank : ℚ))
    ∧ (∀ (search : String → Except String (List String)) (k : ℕ) (q : GoldQuery)
        (results : List String),
          search q.query_text = Except.ok results →
          rankOf q.expected_target_id results k = Option.none →
            (evalQuery search k q).reciprocal_rank = 0)
    ∧ (run goldD searchD 10).mrr = 1 / 2 := by
  have hnn : ∀ gold search k, ∀ x ∈ rrList gold search k, 0 ≤ x := by
    intro gold search k x hx
    obtain ⟨q, hq, rfl⟩ := List.mem_map.mp hx
    exact (evalQuery_rr_bounds search k q).1
  have hle : ∀ gold search k, ∀ x ∈ rrList gold search k, x ≤ 1 := by
    intro gold search k x hx
    obtain ⟨q, hq, rfl⟩ := List.mem_map.mp hx
    exact (evalQuery_rr_bounds search k q).2
  refine ⟨fun gold search k => ⟨?_, ?_, ?_, ?_⟩, ?_, ?_, ?_⟩
  · rw [run_mrr]
    have hsum0 : 0 ≤ (rrList gold search k).sum := List.sum_nonneg (hnn gold search k)
    positivity
  · rw [run_mrr]
    rcases Nat.eq_zero_or_pos gold.length with h0 | hpos
    · have hg : gold = [] := List.length_eq_zero.mp h0
      subst hg
      simp [rrList]
    · have hlen : (0:ℚ) < (gold.length : ℚ) := by exact_mod_cast hpos
      rw [div_le_one hlen]
      calc (rrList gold search k).sum ≤ ((rrList gold search k).length : ℚ) :=
            sum_le_length_of_le_one (hle gold search k)
        _ = (gold.length : ℚ) := by rw [rrList_length]
  · rw [run_mrr]
    rfl
  · intro hne
    rw [run_mrr]
    have hlenpos : 0 < gold.length := List.length_pos.mpr hne
    have hlenq : ((gold.length : ℕ) : ℚ) ≠ 0 := by
      have : (0:ℚ) < (gold.length : ℚ) := by exact_mod_cast hlenpos
      linarith
    rw [div_eq_one_iff_eq hlenq]
    have hcast : ((gold.length : ℕ) : ℚ) = ((rrList gold search k).length : ℚ) := by
      rw [rrList_length]
    rw [hcast, sum_eq_length_iff_all_one (hle gold search k)]
    constructor
    · intro h q hq
      exact (evalQuery_rr_eq_one_iff search k q).mp
        (h _ (List.mem_map.mpr ⟨q, hq, rfl⟩))
    · intro h x hx
      obtain ⟨q, hq, rfl⟩ := List.mem_map.mp hx
      exact (evalQuery_rr_eq_one_iff search k q).mpr (h q hq)
  · intro search k q results rank hs hr
    rw [evalQuery_found hs hr]
  · intro search k q results hs hr
    rw [evalQuery_notFound hs hr]
  · have hm : (run goldD searchD 10).mrr
        = (1 / ((1:ℕ):ℚ) + (0 + 0)) / ((2:ℕ):ℚ) := rfl
    rw [hm]
    norm_num

/-- C4 counterexample: with the empty gold set the batch mrr is 0 while
every gold query is vacuously found at rank 1, so the biconditional of the
claim fails as stated for that input. -/
theorem mrr_one_iff_fails_on_empty_goldset :
    ¬ (((run ([] : List GoldQuery) (fun _ => Except.ok []) 10).mrr = 1)
        ↔ (∀ q ∈ ([] : List GoldQuery),
            foundAtRank1 (fun _ => Except.ok []) 10 q)) := by
  intro h
  have h2 : (run ([] : List GoldQuery) (fun _ => Except.ok []) 10).mrr = 0 := by
    simp [run]
  rw [h2] at h
  have := h.mpr (by simp)
  norm_num at this

theorem goldset_mrr_properties_witness :
    (goldD ≠ [])
    ∧ ((run goldD searchD 10).mrr = 1 ↔ ∀ q ∈ goldD, foundAtRank1 searchD 10 q) :=
  ⟨by decide, (goldset_mrr_properties.1 goldD searchD 10).2.2.2 (by decide)⟩

/-- C6: a query on which the injected search capability fails gets a
per-query entry with found false and the error message, while the batch
still produces an entry for every gold query, so no single failing query
aborts the evaluation. -/
theorem evaluation_continues_on_search_error :
    ∀ (gold : List GoldQuery) (search : String → Except String (List String))
      (k : ℕ) (q : GoldQuery) (msg : String), q ∈ gold →
      search q.query_text = Except.error msg →
        (run gold search k).per_query.length = gold.length
      ∧ (q.query_text,
          ({ found := false, reciprocal_rank := 0, error := Option.some msg } : QueryResult))
            ∈ (run gold search k).per_query
      ∧ (∀ q2 ∈ gold,
          (q2.query_text, evalQuery search k q2) ∈ (run gold search k).per_query) := by
  intro gold search k q msg hq hs
  refine ⟨by simp [run], ?_, ?_⟩
  · have hmem : (q.query_text, evalQuery search k q)
        ∈ gold.map (fun q => (q.query_text, evalQuery search k q)) :=
      List.mem_map.mpr ⟨q, hq, rfl⟩
    rw [evalQuery_error hs] at hmem
    simpa [run] using hmem
  · intro q2 hq2
    have hmem : (q2.query_text, evalQuery search k q2)
        ∈ gold.map (fun q => (q.query_text, evalQuery search k q)) :=
      List.mem_map.mpr ⟨q2, hq2, rfl⟩
    simpa [run] using hmem

theorem evaluation_continues_on_search_error_witness :
    (({ query_text := "q2", expected_target_id := "t2" } : GoldQuery) ∈ goldE
      ∧ searchE "q2" = Except.error "timeout")
    ∧ (run goldE searchE 5).per_query.length = goldE.length
    ∧ ("q2", ({ found := false, reciprocal_rank := 0, error := Option.some "timeout" } : QueryResult))
        ∈ (run goldE searchE 5).per_query := by
  have h := evaluation_continues_on_search_error goldE searchE 5
      { query_text := "q2", expected_target_id := "t2" } "timeout" (by decide) rfl
  exact ⟨⟨by decide, rfl⟩, h.1, h.2.1⟩

theorem meanOf_const {l : List ℚ} {c : ℚ} (hne : l ≠ []) (h : ∀ x ∈ l, x = c) :
    meanOf l = c := by
  have hsum : l.sum = l.length • c := List.sum_eq_card_nsmul l c h
  have hlen : (0:ℚ) < (l.length : ℚ) := by
    exact_mod_cast List.length_pos.mpr hne
  rw [meanOf, hsum, nsmul_eq_mul, mul_comm, mul_div_assoc, div_self (by linarith),
    mul_one]

theorem varianceOf_const {l : List ℚ} {c : ℚ} (hne : l ≠ []) (h : ∀ x ∈ l, x = c) :
    varianceOf l = 0 := by
  have hm : meanOf l = c := meanOf_const hne h
  have hz : ∀ y ∈ l.map (fun x => (x - meanOf l) ^ 2), y = 0 := by
    intro y hy
    obtain ⟨x, hx, rfl⟩ := List.mem_map.mp hy
    rw [h x hx, hm, sub_self]
    ring
  rw [varianceOf, List.sum_eq_zero hz, zero_div]

/-- C7: the clamped stability score always lies in the unit interval, and
a variant whose samples are all identical has variance 0, hence standard
deviation 0, hence stability score exactly 1. -/
theorem stability_score_bounds_and_identical :
    (∀ (stddev_ms mean_ms eps : ℚ),
        0 ≤ stabilityScore stddev_ms mean_ms eps
      ∧ stabilityScore stddev_ms mean_ms eps ≤ 1)
    ∧ (∀ (l : List ℚ) (c s eps : ℚ), l ≠ [] → (∀ x ∈ l, x = c) →
        0 ≤ s → s ^ 2 = varianceOf l →
          varianceOf l = 0 ∧ stabilityScore s (meanOf l) eps = 1) := by
  constructor
  · intro sd m e
    exact ⟨le_min (by norm_num) (le_max_left 0 _), min_le_left _ _⟩
  · intro l c s eps hne hid hs hvar
    have hv : varianceOf l = 0 := varianceOf_const hne hid
    have hs0 : s = 0 := by
      have h0 : s ^ 2 = 0 := hvar.trans hv
      exact (pow_eq_zero_iff two_ne_zero).mp h0
    refine ⟨hv, ?_⟩
    rw [hs0, stabilityScore, zero_div]
    norm_num

theorem stability_score_bounds_and_identical_witness :
    (([(5:ℚ)] ≠ []) ∧ (∀ x ∈ [(5:ℚ)], x = 5) ∧ (0:ℚ) ≤ 0
      ∧ (0:ℚ) ^ 2 = varianceOf [(5:ℚ)])
    ∧ stabilityScore 0 (meanOf [(5:ℚ)]) 1 = 1 := by
  have hvar : (0:ℚ) ^ 2 = varianceOf [(5:ℚ)] := by
    simp [varianceOf, meanOf]
  exact ⟨⟨by decide, by decide, by decide, hvar⟩,
    (stability_score_bounds_and_identical.2 [(5:ℚ)] 5 0 1 (by decide) (by decide)
      (by decide) hvar).2⟩

theorem relRank_minRel_le_left (a b : ReliabilityLevel) :
    relRank (minRel a b) ≤ relRank a := by
  by_cases h : relRank a ≤ relRank b
  · rw [minRel, if_pos h]
  · rw [minRel, if_neg h]
    omega

theorem relRank_minRel_le_right (a b : ReliabilityLevel) :
    relRank (minRel a b) ≤ relRank b := by
  by_cases h : relRank a ≤ relRank b
  · rw [minRel, if_pos h]
    exact h
  · rw [minRel, if_neg h]

theorem minRel_eq_or (a b : ReliabilityLevel) : minRel a b = a ∨ minRel a b = b := by
  by_cases h : relRank a ≤ relRank b
  · exact Or.inl (by rw [minRel, if_pos h])
  · exact Or.inr (by rw [minRel, if_neg h])

theorem relRank_foldr_le {ls : List ReliabilityLevel} {x : ReliabilityLevel}
    (hx : x ∈ ls) : relRank (ls.foldr minRel ReliabilityLevel.high) ≤ relRank x := by
  induction ls with
  | nil => cases hx
  | cons a t ih =>
    rw [List.foldr_cons]
    rcases List.mem_cons.mp hx with rfl | hx2
    · exact relRank_minRel_le_left _ _
    · exact le_trans (relRank_minRel_le_right _ _) (ih hx2)

theorem minRel_high (a : ReliabilityLevel) : minRel a ReliabilityLevel.high = a := by
  rw [minRel, if_pos]
  cases a <;> simp [relRank]

theorem foldr_minRel_mem {ls : List ReliabilityLevel} (h : ls ≠ []) :
    ls.foldr minRel ReliabilityLevel.high ∈ ls := by
  induction ls with
  | nil => exact absurd rfl h
  | cons a t ih =>
    rw [List.foldr_cons]
    rcases List.eq_nil_or_concat t with rfl | _
    · rw [List.foldr_nil, minRel_high]
      exact List.mem_cons_self a []
    · have ht : t ≠ [] := by
        rename_i hc
        obtain ⟨l2, b, rfl⟩ := hc
        simp
      rcases minRel_eq_or a (t.foldr minRel ReliabilityLevel.high) with he | he
      · rw [he]
        exact List.mem_cons_self a t
      · rw [he]
        exact List.mem_cons_of_mem a (ih ht)

/-- C8: the recommendation confidence is the minimum reliability level
across the compared variants: it is a lower bound of every variant level
and is attained on nonempty inputs, it is never high when some variant is
low, and comparing a 40-sample variant with an 8-sample variant yields a
confidence of at most medium (here exactly low). -/
theorem confidence_min_reliability :
    (∀ (counts : List ℕ), ∀ c ∈ counts,
        relRank (confidenceOf counts) ≤ relRank (reliabilityLevel c))
    ∧ (∀ (counts : List ℕ), counts ≠ [] →
        confidenceOf counts ∈ counts.map reliabilityLevel)
    ∧ (∀ (counts : List ℕ),
        (∃ c ∈ counts, reliabilityLevel c = ReliabilityLevel.low) →
          confidenceOf counts ≠ ReliabilityLevel.high)
    ∧ confidenceOf [40, 8] = ReliabilityLevel.low
    ∧ relRank (confidenceOf [40, 8]) ≤ relRank ReliabilityLevel.medium := by
  have hlb : ∀ (counts : List ℕ), ∀ c ∈ counts,
      relRank (confidenceOf counts) ≤ relRank (reliabilityLevel c) := by
    intro counts c hc
    exact relRank_foldr_le (List.mem_map.mpr ⟨c, hc, rfl⟩)
  refine ⟨hlb, ?_, ?_, by decide, by decide⟩
  · intro counts h
    have hm : counts.map reliabilityLevel ≠ [] := by
      simpa using h
    exact foldr_minRel_mem hm
  · rintro counts ⟨c, hc, hlow⟩
    have hb := hlb counts c hc
    rw [hlow] at hb
    intro hcontra
    rw [hcontra] at hb
    simp [relRank] at hb

theorem confidence_min_reliability_witness :
    ((8 : ℕ) ∈ [40, 8] ∧ reliabilityLevel 8 = ReliabilityLevel.low)
    ∧ confidenceOf [40, 8] ≠ ReliabilityLevel.high :=
  ⟨⟨by decide, by decide⟩,
    confidence_min_reliability.2.2.1 [40, 8] ⟨8, by decide, by decide⟩⟩

/-- C10: the chart-analysis client caps the k sent to the run-evaluation
operation at 10, while the input field allows up to 20 and the headings
keep labelling the result with the uncapped k, so for every k above 10
the evaluation runs with k equal to 10 under a mismatched label. -/
theorem mrr_request_k_capped :
    (∀ k : ℕ, requestK k = min k 10)
    ∧ (∀ k : ℕ, k ≤ kInputMax → 10 < k →
        requestK k = 10 ∧ chartLabelK k ≠ requestK k) := by
  refine ⟨fun k => rfl, fun k hk h10 => ⟨?_, ?_⟩⟩
  · rw [requestK]
    omega
  · rw [requestK, chartLabelK]
    omega

theorem mrr_request_k_capped_witness :
    ((15 : ℕ) ≤ kInputMax ∧ (10:ℕ) < 15)
    ∧ requestK 15 = 10 ∧ chartLabelK 15 ≠ requestK 15 :=
  ⟨⟨by decide, by decide⟩, mrr_request_k_capped.2 15 (by decide) (by decide)⟩

end LectureNavigator
